import Mathlib

/-!
Verification of the repour async utility substrate.

The repository under verification consists of `repour/main.py` (CLI entry
point, config override, logging configuration, per-task log context) and its
test suite `test/test_asutil.py`.  The async utility module `repour.asutil`
itself (process runner, byte conversion, downloader, recursive cleanup) and
`repour.exception` are exercised by the tests but their source is not part of
the repository snapshot, so those operations are modelled from the design
document; definitions taken from `repour/main.py` are translated directly.

Byte strings are modelled as `List Char` (the decoded code-point sequence);
UTF-8 decoding, which is performed by the Python standard library between the
raw bytes and the text operations, is abstracted away since every claim under
consideration concerns the text-level behaviour.
-/

namespace Repour

/-! ### Definitions -/

/-- Modelled from the spec: the `OutputFormat` enumeration consumed by the
missing `repour.asutil._convert_bytes`.  The test suite calls the four modes
`"data"`, `"text"`, `"lines"` and `"single"` (spec names: raw-bytes, text,
lines, single-line). -/
inductive OutputFormat
  | data
  | text
  | lines
  | single
deriving DecidableEq, Repr

/-- A dynamically typed Python value as returned by `_convert_bytes`:
raw bytes, a decoded string, or a list of strings. -/
inductive PyValue
  | bytes (b : List Char)
  | str (s : List Char)
  | strList (l : List (List Char))
deriving DecidableEq, Repr

/-- Split a character sequence at every occurrence of `sep`, keeping empty
pieces: a sequence with k separators yields k+1 pieces (Python
`str.split(sep)`). -/
def splitOnChar (sep : Char) : List Char → List (List Char)
  | [] => [[]]
  | c :: cs =>
    if c = sep then [] :: splitOnChar sep cs
    else
      match splitOnChar sep cs with
      | [] => [[c]]
      | p :: ps => (c :: p) :: ps

/-- Whether a character sequence ends with a newline
(Python `text.endswith("\n")`). -/
def endsWithNl : List Char → Bool
  | [] => false
  | [c] => c = '\n'
  | _ :: c :: cs => endsWithNl (c :: cs)

/-- Modelled from the spec: line splitting as performed by the missing
`repour.asutil._convert_bytes` for the `lines` mode — decoded text split on
newline boundaries; when the text ends with a newline the single resulting
trailing empty string is dropped, and the empty text yields the empty
sequence (so that `single` can fall back to the empty string). -/
def pySplitlines (t : List Char) : List (List Char) :=
  if t = [] then []
  else if endsWithNl t then (splitOnChar '\n' t).dropLast
  else splitOnChar '\n' t

/-- Modelled from the spec: the missing `repour.asutil._convert_bytes b mode`.
`data` returns the bytes unmodified, `text` the decoded text, `lines` the
newline split with the single synthetic trailing empty entry dropped, and
`single` the first of those lines or the empty string. -/
def convert_bytes (b : List Char) (mode : OutputFormat) : PyValue :=
  match mode with
  | .data => .bytes b
  | .text => .str b
  | .lines => .strList (pySplitlines b)
  | .single => .str ((pySplitlines b).headD [])

/-- Concatenation of N newline-terminated lines: each line is followed by a
single newline character. -/
def joinLines (ls : List (List Char)) : List Char :=
  (ls.map (fun l => l ++ ['\n'])).flatten

/-- Modelled from the spec: the command specification accepted by the missing
`repour.asutil.expect_ok_closure` — ordered argument vector, optional input
byte payload, optional working directory, optional environment overrides. -/
structure CommandSpec where
  cmd : List String
  stdin_payload : Option (List Char)
  cwd : Option String
  env : Option (List (String × String))
deriving DecidableEq, Repr

/-- The observable outcome of the spawned child process: exit code and the
fully drained standard output and standard error byte streams. -/
structure CommandResult where
  exit_code : Int
  stdout : List Char
  stderr : List Char
deriving DecidableEq, Repr

/-- The classified "command failed" error: the original command
specification, exit code, full captured stdout, full captured stderr. -/
structure CommandExitError where
  cmd : CommandSpec
  exit_code : Int
  stdout : List Char
  stderr : List Char
deriving DecidableEq, Repr

/-- Modelled from the spec: the decision step of the missing
`repour.asutil.expect_ok_closure` after the child process has terminated and
its output has been drained (spawning and draining are the operating
system's side of the interaction and enter the model through the
`CommandResult`).  Exit code 0 returns the converted stdout per the
requested `OutputFormat`; any other exit code raises the classified
`CommandExitError` carrying exit code, stdout, stderr and the original
`CommandSpec`. -/
def expect_ok (spec : CommandSpec) (fmt : OutputFormat) (res : CommandResult) :
    Except CommandExitError PyValue :=
  if res.exit_code = 0 then .ok (convert_bytes res.stdout fmt)
  else .error ⟨spec, res.exit_code, res.stdout, res.stderr⟩

/-- The command specification used by `test_exception` in the test suite. -/
def falseSpec : CommandSpec :=
  { cmd := ["/bin/false"], stdin_payload := none, cwd := none, env := none }

/-- An HTTP response as observed by the downloader: status code, the
filename parameter of the content-disposition header when that header is
present (`none` when absent), the body chunks in arrival order, and whether
the body stream completed without a transport error. -/
structure HttpResponse where
  status : Nat
  cd_filename : Option (List Char)
  chunks : List (List Char)
  clean : Bool
deriving DecidableEq, Repr

/-- The network's behaviour for one GET request: either the connection
cannot be established at all, or a response arrives. -/
inductive NetFetch
  | noConnection
  | response (resp : HttpResponse)
deriving DecidableEq, Repr

/-- The downloader error taxonomy: `connection` is the distinct
download-connection error, `status` the distinct download-status error
carrying the HTTP status code. -/
inductive DownloadError
  | connection
  | status (code : Nat)
deriving DecidableEq, Repr

/-- Whether an HTTP status code counts as success (2xx). -/
def is_success_status (s : Nat) : Bool :=
  Nat.ble 200 s && Nat.blt s 300

/-- The final path segment of a URL: everything after the last `/`
(Python `os.path.basename`). -/
def urlBasename (url : List Char) : List Char :=
  (splitOnChar '/' url).getLastD []

/-- Modelled from the spec: the missing `repour.asutil._find_filename`.
Resolution in priority order — the filename token of the response's
content-disposition header when present and non-empty, otherwise the final
path segment of the request URL. -/
def find_filename (url : List Char) (resp : HttpResponse) : List Char :=
  match resp.cd_filename with
  | some f => if f = [] then urlBasename url else f
  | none => urlBasename url

/-- The chunked write loop of the downloader: each arriving chunk is
appended to the destination in order. -/
def stream_chunks (dest : List Char) : List (List Char) → List Char
  | [] => dest
  | c :: cs => stream_chunks (dest ++ c) cs

/-- Outcome of one download call: the bytes that were written to the
caller-owned destination, and either the resolved filename (success) or the
classified error (the raise). -/
structure DownloadResult where
  dest : List Char
  outcome : Except DownloadError (List Char)

/-- Modelled from the spec: the missing `repour.asutil.download`.  A failed
connection raises the download-connection error before anything is written;
a non-success status raises the download-status error carrying the code; an
accepted response is streamed chunk by chunk to the destination, and a
transport failure mid-body raises the download-connection error, leaving the
partial write behind together with the raised error.  Only a cleanly
completed body returns the resolved filename. -/
def download (url : List Char) (fetch : NetFetch) : DownloadResult :=
  match fetch with
  | .noConnection => { dest := [], outcome := .error .connection }
  | .response resp =>
    if is_success_status resp.status then
      if resp.clean then
        { dest := stream_chunks [] resp.chunks,
          outcome := .ok (find_filename url resp) }
      else
        { dest := stream_chunks [] resp.chunks, outcome := .error .connection }
    else
      { dest := [], outcome := .error (.status resp.status) }

/-- The sentinel substituted when no context label is attached
(`ContextLogRecord.no_context_found` in `repour/main.py`). -/
def no_context_found : String := "NoContext"

/-- A scheduled task as inspected by the log record factory: its
`log_context` attribute may be present (set once by the caller) or absent. -/
structure AsyncTask where
  log_context : Option String
deriving DecidableEq, Repr

/-- The context-bearing part of a constructed log record. -/
structure TaggedLogRecord where
  log_context : String
deriving DecidableEq, Repr

/-- `ContextLogRecord.__init__` from `repour/main.py`: at record
construction the currently executing task is inspected; its `log_context`
attribute is read with the sentinel as the `getattr` default, and when no
task is executing the sentinel is used directly. -/
def contextLogRecord (current_task : Option AsyncTask) : TaggedLogRecord :=
  match current_task with
  | some t =>
    match t.log_context with
    | some lbl => { log_context := lbl }
    | none => { log_context := no_context_found }
  | none => { log_context := no_context_found }

/-- A log handler as installed by `configure_logging`: which sink it is and
the record fields its formatter renders. -/
structure LogHandler where
  kind : String
  fmt_fields : List String
deriving DecidableEq, Repr

/-- The fields of the main formatter in `configure_logging`
(format string `{asctime} [{levelname}] [{log_context}] {name}:{lineno}
{message}`), in order of appearance. -/
def context_formatter_fields : List String :=
  ["asctime", "levelname", "log_context", "name", "lineno", "message"]

/-- The fields of `formatter_callback` in `configure_logging`
(format string `[{levelname}] {name}:{lineno} {message}`), in order of
appearance. -/
def callback_formatter_fields : List String :=
  ["levelname", "name", "lineno", "message"]

/-- The observable result of `configure_logging`: the installed handlers in
installation order and the root logger level. -/
structure LoggingConfig where
  handlers : List LogHandler
  level : Int
deriving DecidableEq, Repr

/-- `configure_logging` from `repour/main.py`: a file handler when a log
path is given and a console handler unless silenced, both with the main
formatter; then always the websocket handler and the file-callback handler,
both with `formatter_callback`; the root level is the default level plus 10
per quiet flag minus 10 per verbose flag. -/
def configure_logging (default_level : Int) (log_path : Option String)
    (verbose_count quiet_count : Nat) (silent : Bool) : LoggingConfig :=
  { handlers :=
      (match log_path with
       | some _ => [{ kind := "file", fmt_fields := context_formatter_fields }]
       | none => []) ++
      (if silent then []
       else [{ kind := "console", fmt_fields := context_formatter_fields }]) ++
      [{ kind := "websocket", fmt_fields := callback_formatter_fields },
       { kind := "filecallback", fmt_fields := callback_formatter_fields }],
    level := default_level + 10 * (quiet_count : Int) - 10 * (verbose_count : Int) }

/-- A tree of string-keyed dictionaries with leaves of type `α`: the shape
of both a parsed YAML config (leaves are scalar values) and a directory
tree (leaves are file contents, nodes are directories). -/
inductive Tree (α : Type) where
  | leaf (a : α)
  | node (entries : List (String × Tree α))

/-- A filesystem node: a leaf is a file with its content, a node is a
directory with its named children. -/
abbrev FsNode := Tree (List Char)

/-- Python dict read `es[p]`: the value of the first entry named `p`. -/
def lookupEntry {α : Type} : List (String × Tree α) → String → Option (Tree α)
  | [], _ => none
  | (k, v) :: es, p => if k = p then some v else lookupEntry es p

/-- Removal of the entry named `p` from a directory listing. -/
def removeEntry {α : Type} :
    List (String × Tree α) → String → List (String × Tree α)
  | [], _ => []
  | (k, v) :: es, p =>
    if k = p then removeEntry es p else (k, v) :: removeEntry es p

/-- Python dict assignment `es[p] = v`: replace the value of the existing
entry named `p` in place, or append a new entry when none exists. -/
def setEntry {α : Type} :
    List (String × Tree α) → String → Tree α → List (String × Tree α)
  | [], p, v => [(p, v)]
  | (k, w) :: es, p, v =>
    if k = p then (k, v) :: es else (k, w) :: setEntry es p v

/-- Resolution of a path of keys against a tree: `some` the addressed
subtree when every step exists, `none` otherwise.  For a filesystem tree
this is existence of the path. -/
def treeLookup {α : Type} : Tree α → List String → Option (Tree α)
  | t, [] => some t
  | .leaf _, _ :: _ => none
  | .node es, p :: ps =>
    match lookupEntry es p with
    | some t => treeLookup t ps
    | none => none

/-- Modelled from the spec: the missing `repour.asutil.rmtree`
(`shutil.rmtree` delegated to a worker thread; the claim under verification
concerns only the resulting filesystem state, not the scheduling).  The
named child of the innermost parent directory is removed together with its
whole subtree; a missing component, an empty path or a file in directory
position raises the classified filesystem error, carried here as the OS
error name. -/
def rmtree {α : Type} : Tree α → List String → Except String (Tree α)
  | .leaf _, _ => .error "NotADirectoryError"
  | .node _, [] => .error "FileNotFoundError"
  | .node es, [p] =>
    match lookupEntry es p with
    | some _ => .ok (.node (removeEntry es p))
    | none => .error "FileNotFoundError"
  | .node es, p :: q :: ps =>
    match lookupEntry es p with
    | some t =>
      match rmtree t (q :: ps) with
      | .ok t2 => .ok (.node (setEntry es p t2))
      | .error e => .error e
    | none => .error "FileNotFoundError"

/-- The directory tree built by `test_rmtree` in the test suite: a
directory `test123` holding one file. -/
def exampleFs : FsNode :=
  .node [("test123", .node [("somefile.txt", .leaf ("blah blah blah".toList))])]

/-- The write step of `override` from `repour/main.py` with the argument
value present: `resolve_leaf_dict` walks the coordinates down to the parent
dictionary of the last coordinate (reading `parent_dict[leaf_coords[0]]` at
each step), then assigns `d[config_coords[-1]] = value`.  `none` models the
exception that propagates when an intermediate key is missing (KeyError),
an intermediate value is not a dictionary (TypeError), or the coordinate
list is empty (IndexError); in every such case the config is left
unchanged. -/
def override_set {α : Type} : Tree α → List String → Tree α → Option (Tree α)
  | .node es, [p], v => some (.node (setEntry es p v))
  | .node es, p :: q :: ps, v =>
    match lookupEntry es p with
    | some t =>
      match override_set t (q :: ps) v with
      | some t2 => some (.node (setEntry es p t2))
      | none => none
    | none => none
  | .node _, [], _ => none
  | .leaf _, _, _ => none

/-- `override` from `repour/main.py`: when `getattr(args, arg_name, None)`
is `None` (the argument is absent or `None`, modelled as `arg = none`)
nothing happens and the config is returned unchanged; otherwise the leaf
addressed by the coordinates is assigned the argument's value.  The result
is the final state of the config dictionary; `none` models a raised
exception (config unchanged). -/
def override (config : Tree String) (coords : List String)
    (arg : Option (Tree String)) : Option (Tree String) :=
  match arg with
  | none => some config
  | some v => override_set config coords v

/-- Whether neither path is a prefix of the other: the two paths disagree
at some position inside their common length.  Entries at such a path are
untouched by a write at the other path. -/
def pathIncomparable : List String → List String → Bool
  | [], _ => false
  | _, [] => false
  | a :: ps, b :: qs => if a = b then pathIncomparable ps qs else true

/-- The config dictionary used to exercise `override`: the shape
`run_subcommand` reads (`log.path`, `log.level`, `bind.address`,
`bind.port`). -/
def exampleConfig : Tree String :=
  .node [("log", .node [("path", .leaf "server.log"), ("level", .leaf "INFO")]),
         ("bind", .node [("address", .leaf "0.0.0.0"), ("port", .leaf "7331")])]

/-! ### Theorems -/

theorem dropLast_append_singleton {α : Type} (b : α) (l : List α) :
    (l ++ [b]).dropLast = l := by
  induction l with
  | nil => rfl
  | cons a as ih =>
    cases as with
    | nil => rfl
    | cons c cs =>
      simp only [List.cons_append, List.dropLast] at ih ⊢
      simp [ih]

theorem splitOnChar_ne_nil (sep : Char) (t : List Char) :
    splitOnChar sep t ≠ [] := by
  induction t with
  | nil => simp [splitOnChar]
  | cons c cs ih =>
    simp only [splitOnChar]
    split
    · simp
    · cases h : splitOnChar sep cs with
      | nil => simp
      | cons p ps => simp

theorem splitOnChar_append_sep (sep : Char) (l rest : List Char)
    (h : sep ∉ l) :
    splitOnChar sep (l ++ sep :: rest) = l :: splitOnChar sep rest := by
  induction l with
  | nil => simp [splitOnChar]
  | cons c cs ih =>
    have hc : c ≠ sep := by
      intro hcs; exact h (hcs ▸ List.mem_cons_self c cs)
    have hcs : sep ∉ cs := fun hm => h (List.mem_cons_of_mem c hm)
    simp only [List.cons_append, splitOnChar, if_neg hc]
    rw [show List.append cs (sep :: rest) = cs ++ sep :: rest from rfl, ih hcs]

theorem joinLines_ne_nil (l : List Char) (ls : List (List Char)) :
    joinLines (l :: ls) ≠ [] := by
  simp [joinLines]

theorem joinLines_cons (l : List Char) (ls : List (List Char)) :
    joinLines (l :: ls) = l ++ '\n' :: joinLines ls := by
  simp [joinLines]

theorem endsWithNl_append (l : List Char) (c : Char) (cs : List Char) :
    endsWithNl (l ++ c :: cs) = endsWithNl (c :: cs) := by
  induction l with
  | nil => rfl
  | cons a as ih =>
    cases as with
    | nil => cases cs <;> simp [endsWithNl]
    | cons b bs => simpa [endsWithNl] using ih

theorem endsWithNl_joinLines (l : List Char) (ls : List (List Char)) :
    endsWithNl (joinLines (l :: ls)) = true := by
  induction ls generalizing l with
  | nil => simp [joinLines, endsWithNl_append, endsWithNl]
  | cons m ms ih =>
    rw [joinLines_cons, endsWithNl_append]
    cases hj : joinLines (m :: ms) with
    | nil => exact absurd hj (joinLines_ne_nil m ms)
    | cons d ds =>
      have := ih m
      rw [hj] at this
      simpa [endsWithNl] using this

theorem splitOnChar_joinLines (ls : List (List Char))
    (h : ∀ l ∈ ls, '\n' ∉ l) :
    splitOnChar '\n' (joinLines ls) = ls ++ [[]] := by
  induction ls with
  | nil => simp [joinLines, splitOnChar]
  | cons l ms ih =>
    have hl : '\n' ∉ l := h l (List.mem_cons_self l ms)
    have hms : ∀ m ∈ ms, '\n' ∉ m := fun m hm => h m (List.mem_cons_of_mem l hm)
    rw [joinLines_cons, splitOnChar_append_sep '\n' l (joinLines ms) hl, ih hms]
    simp

theorem pySplitlines_joinLines (ls : List (List Char))
    (h : ∀ l ∈ ls, '\n' ∉ l) :
    pySplitlines (joinLines ls) = ls := by
  cases ls with
  | nil => simp [joinLines, pySplitlines]
  | cons l ms =>
    unfold pySplitlines
    rw [if_neg (joinLines_ne_nil l ms), if_pos (endsWithNl_joinLines l ms),
      splitOnChar_joinLines (l :: ms) h,
      dropLast_append_singleton ([] : List Char) (l :: ms)]

/-- C1: a command whose child process exits with code 0 returns the
converted output and never raises; a command whose child process exits with
a non-zero code always raises the classified `CommandExitError` carrying the
true exit code, the full captured stdout, the full captured stderr, and the
original command specification. -/
theorem expect_ok_exit_code (spec : CommandSpec) (fmt : OutputFormat)
    (res : CommandResult) :
    (res.exit_code = 0 →
      expect_ok spec fmt res = .ok (convert_bytes res.stdout fmt)) ∧
    (res.exit_code ≠ 0 →
      expect_ok spec fmt res =
        .error { cmd := spec, exit_code := res.exit_code,
                 stdout := res.stdout, stderr := res.stderr }) := by
  constructor <;> intro h <;> simp [expect_ok, h]

/-- Witness for C1: `["/bin/false"]` exiting 1 with empty output raises the
classified error carrying exit code 1 and the command. -/
theorem expect_ok_exit_code_witness :
    expect_ok falseSpec .data { exit_code := 1, stdout := [], stderr := [] } =
      .error { cmd := falseSpec, exit_code := 1, stdout := [], stderr := [] } :=
  (expect_ok_exit_code falseSpec .data
    { exit_code := 1, stdout := [], stderr := [] }).2 (by decide)

/-- C2: for a byte sequence composed of N newline-terminated lines, the
`lines` conversion yields exactly those N strings with no trailing empty
entry, and the `single` conversion yields the first of them, or the empty
string when N = 0. -/
theorem convert_bytes_lines_single (ls : List (List Char))
    (h : ∀ l ∈ ls, '\n' ∉ l) :
    convert_bytes (joinLines ls) .lines = .strList ls ∧
    (pySplitlines (joinLines ls)).length = ls.length ∧
    convert_bytes (joinLines ls) .single = .str (ls.headD []) := by
  have hs := pySplitlines_joinLines ls h
  exact ⟨by simp [convert_bytes, hs], by simp [hs],
    by simp [convert_bytes, hs]⟩

/-- Witness for C2: the two newline-terminated lines `a` and `b` convert to
the two lines and to the first line. -/
theorem convert_bytes_lines_single_witness :
    convert_bytes (joinLines [['a'], ['b']]) .lines = .strList [['a'], ['b']] ∧
    convert_bytes (joinLines [['a'], ['b']]) .single = .str ['a'] := by
  have h := convert_bytes_lines_single [['a'], ['b']] (by decide)
  exact ⟨h.1, h.2.2⟩

/-- C3: the resolved filename is the content-disposition filename token
whenever that header is present with a non-empty filename, and otherwise —
the header absent, or present with an empty filename — the final path
segment of the request URL; in particular, with hint `foo.tar` and a URL
ending in `bar.zip` it is `foo.tar`, and with no hint it is `bar.zip`. -/
theorem find_filename_resolution (url : List Char) (resp : HttpResponse) :
    (∀ f, resp.cd_filename = some f → f ≠ [] → find_filename url resp = f) ∧
    ((resp.cd_filename = none ∨ resp.cd_filename = some []) →
      find_filename url resp = urlBasename url) ∧
    find_filename ("bar.zip".toList)
      { status := 200, cd_filename := some ("foo.tar".toList), chunks := [],
        clean := true } = "foo.tar".toList ∧
    find_filename ("bar.zip".toList)
      { status := 200, cd_filename := none, chunks := [], clean := true } =
      "bar.zip".toList := by
  refine ⟨?_, ?_, ?_, ?_⟩
  · intro f hf hne
    simp [find_filename, hf, hne]
  · rintro (hf | hf) <;> simp [find_filename, hf]
  · decide
  · decide

/-- Witness for C3: the hint `foo.tar` wins over a URL ending in
`bar.zip`. -/
theorem find_filename_resolution_witness :
    find_filename ("http://host/bar.zip".toList)
      { status := 200, cd_filename := some ("foo.tar".toList), chunks := [],
        clean := true } = "foo.tar".toList :=
  (find_filename_resolution ("http://host/bar.zip".toList)
    { status := 200, cd_filename := some ("foo.tar".toList), chunks := [],
      clean := true }).1 ("foo.tar".toList) rfl (by decide)

/-- C5: a constructed log record's `log_context` field equals the label
attached to the currently executing task when one is attached, and the
sentinel `"NoContext"` when no label is attached or no task is executing;
the lookup is total, so it never raises. -/
theorem contextLogRecord_log_context (current_task : Option AsyncTask) :
    (∀ t lbl, current_task = some t → t.log_context = some lbl →
      (contextLogRecord current_task).log_context = lbl) ∧
    (∀ t, current_task = some t → t.log_context = none →
      (contextLogRecord current_task).log_context = no_context_found) ∧
    (current_task = none →
      (contextLogRecord current_task).log_context = no_context_found) := by
  refine ⟨?_, ?_, ?_⟩
  · intro t lbl ht hl
    subst ht
    simp [contextLogRecord, hl]
  · intro t ht hl
    subst ht
    simp [contextLogRecord, hl]
  · intro ht
    subst ht
    simp [contextLogRecord]

/-- Witness for C5: a task labelled `task-1` yields a record tagged
`task-1`. -/
theorem contextLogRecord_log_context_witness :
    (contextLogRecord (some { log_context := some "task-1" })).log_context =
      "task-1" :=
  (contextLogRecord_log_context
    (some { log_context := some "task-1" })).1
    { log_context := some "task-1" } "task-1" rfl rfl

theorem stream_chunks_eq_flatten (cs : List (List Char)) :
    ∀ acc, stream_chunks acc cs = acc ++ cs.flatten := by
  induction cs with
  | nil => intro acc; simp [stream_chunks]
  | cons c rest ih =>
    intro acc
    simp [stream_chunks, ih (acc ++ c)]

/-- C4: a download call that returns successfully has written the source
resource's bytes to the destination exactly, byte-for-byte, and returns the
resolved filename. -/
theorem download_success_bytes (url : List Char) (fetch : NetFetch)
    (fn : List Char) (h : (download url fetch).outcome = .ok fn) :
    ∃ resp, fetch = .response resp ∧
      (download url fetch).dest = resp.chunks.flatten ∧
      fn = find_filename url resp := by
  cases fetch with
  | noConnection => simp [download] at h
  | response resp =>
    refine ⟨resp, rfl, ?_⟩
    cases hs : is_success_status resp.status with
    | false => simp [download, hs] at h
    | true =>
      cases hc : resp.clean with
      | false => simp [download, hs, hc] at h
      | true =>
        simp only [download, hs, hc, if_true] at h ⊢
        exact ⟨stream_chunks_eq_flatten resp.chunks [],
          (Except.ok.injEq _ _ ▸ h).symm⟩

/-- Witness for C4: a clean 200 response whose chunks carry the test bytes
is written whole and resolves to the URL basename `foo_bar`. -/
theorem download_success_bytes_witness :
    ∃ resp,
      NetFetch.response
        { status := 200, cd_filename := none,
          chunks := ["just read the ".toList, "instructions".toList],
          clean := true } = .response resp ∧
      (download ("http://localhost:51854/foo_bar".toList)
        (.response
          { status := 200, cd_filename := none,
            chunks := ["just read the ".toList, "instructions".toList],
            clean := true })).dest = resp.chunks.flatten ∧
      "foo_bar".toList =
        find_filename ("http://localhost:51854/foo_bar".toList) resp :=
  download_success_bytes ("http://localhost:51854/foo_bar".toList)
    (.response
      { status := 200, cd_filename := none,
        chunks := ["just read the ".toList, "instructions".toList],
        clean := true })
    ("foo_bar".toList) rfl

/-- C8: a connection or transport failure raises the distinct
download-connection error, a non-success HTTP status raises the distinct
download-status error carrying the status code, and a success outcome is
only returned when the whole resource reached the destination — a partial
write is always accompanied by a raised error. -/
theorem download_failure_modes (url : List Char) (fetch : NetFetch) :
    (fetch = .noConnection →
      (download url fetch).outcome = .error .connection ∧
      (download url fetch).dest = []) ∧
    (∀ resp, fetch = .response resp → is_success_status resp.status = false →
      (download url fetch).outcome = .error (.status resp.status)) ∧
    (∀ resp, fetch = .response resp → is_success_status resp.status = true →
      resp.clean = false →
      (download url fetch).outcome = .error .connection) ∧
    (∀ fn, (download url fetch).outcome = .ok fn →
      ∃ resp, fetch = .response resp ∧ is_success_status resp.status = true ∧
        resp.clean = true ∧
        (download url fetch).dest = resp.chunks.flatten) := by
  refine ⟨?_, ?_, ?_, ?_⟩
  · intro hf
    subst hf
    exact ⟨rfl, rfl⟩
  · intro resp hf hs
    subst hf
    simp [download, hs]
  · intro resp hf hs hc
    subst hf
    simp [download, hs, hc]
  · intro fn h
    cases fetch with
    | noConnection => simp [download] at h
    | response resp =>
      cases hs : is_success_status resp.status with
      | false => simp [download, hs] at h
      | true =>
        cases hc : resp.clean with
        | false => simp [download, hs, hc] at h
        | true =>
          exact ⟨resp, rfl, hs, hc, by
            simp only [download, hs, hc, if_true]
            exact stream_chunks_eq_flatten resp.chunks []⟩

/-- Witness for C8: a 404 response raises the download-status error
carrying 404. -/
theorem download_failure_modes_witness :
    (download ("http://localhost:51854/foo_bar".toList)
      (.response { status := 404, cd_filename := none, chunks := [],
                   clean := true })).outcome = .error (.status 404) :=
  (download_failure_modes ("http://localhost:51854/foo_bar".toList)
    (.response { status := 404, cd_filename := none, chunks := [],
                 clean := true })).2.1
    { status := 404, cd_filename := none, chunks := [], clean := true }
    rfl (by decide)

/-- C6 counterexample: with a log path given and stdio not silenced, the
websocket handler is installed with `formatter_callback`, whose format
string renders levelname, name, lineno and message but not the record's
`log_context` field — so not every installed sink renders the context
label. -/
theorem configure_logging_callback_sink_lacks_context :
    ({ kind := "websocket", fmt_fields := callback_formatter_fields } :
        LogHandler) ∈
      (configure_logging 20 (some "server.log") 0 0 false).handlers ∧
    callback_formatter_fields.contains "log_context" = false := by
  constructor
  · simp [configure_logging]
  · decide

/-- C6 amended: of the sinks installed by the logging configuration, the
file handler and the console handler are given the main formatter, which
renders the record's context label; the websocket handler and the
file-callback handler are given `formatter_callback`, which does not
render it. -/
theorem configure_logging_context_fields (default_level : Int)
    (log_path : Option String) (verbose_count quiet_count : Nat)
    (silent : Bool) :
    ∀ hd ∈ (configure_logging default_level log_path verbose_count
        quiet_count silent).handlers,
      (hd.fmt_fields.contains "log_context" = true ↔
        (hd.kind = "file" ∨ hd.kind = "console")) := by
  intro hd hmem
  cases log_path <;> cases silent <;>
    simp only [configure_logging, List.append_nil, List.nil_append,
      List.cons_append, if_true, if_false, List.mem_cons, List.mem_singleton,
      List.not_mem_nil, or_false, Bool.false_eq_true, ite_true, ite_false] at hmem <;>
    rcases hmem with rfl | hmem <;>
    first
      | decide
      | (rcases hmem with rfl | hmem <;>
          first
            | decide
            | (rcases hmem with rfl | rfl <;> decide))

/-- Witness for C6 amended: the file handler installed with a log path does
render the context label. -/
theorem configure_logging_context_fields_witness :
    ({ kind := "file", fmt_fields := context_formatter_fields } :
        LogHandler).fmt_fields.contains "log_context" = true ↔
      (({ kind := "file", fmt_fields := context_formatter_fields } :
          LogHandler).kind = "file" ∨
        ({ kind := "file", fmt_fields := context_formatter_fields } :
            LogHandler).kind = "console") :=
  configure_logging_context_fields 20 (some "server.log") 0 0 false
    { kind := "file", fmt_fields := context_formatter_fields }
    (by simp [configure_logging])

theorem not_mem_getLastD_splitOnChar (sep : Char) (t : List Char) :
    sep ∉ (splitOnChar sep t).getLastD [] := by
  induction t with
  | nil => simp [splitOnChar]
  | cons c cs ih =>
    by_cases hc : c = sep
    · subst hc
      simp only [splitOnChar, if_pos rfl]
      cases hs : splitOnChar c cs with
      | nil => exact absurd hs (splitOnChar_ne_nil c cs)
      | cons p ps =>
        rw [hs] at ih
        simpa [List.getLastD] using ih
    · simp only [splitOnChar, if_neg hc]
      cases hs : splitOnChar sep cs with
      | nil => exact absurd hs (splitOnChar_ne_nil sep cs)
      | cons p ps =>
        rw [hs] at ih
        cases ps with
        | nil =>
          simp only [List.getLastD] at ih ⊢
          intro hm
          rcases List.mem_cons.mp hm with h1 | h1
          · exact hc h1.symm
          · exact ih h1
        | cons p2 ps2 =>
          simpa [List.getLastD] using ih

/-- C7 counterexample: the resolved filename is not sanitized and can be
empty — a URL whose path ends in a slash resolves to the empty string, and
a content-disposition hint containing path separators and traversal
segments is returned verbatim. -/
theorem find_filename_unsanitized :
    find_filename ("http://host/dir/".toList)
      { status := 200, cd_filename := none, chunks := [], clean := true } =
      [] ∧
    find_filename ("http://host/bar.zip".toList)
      { status := 200, cd_filename := some ("../../etc/passwd".toList),
        chunks := [], clean := true } = "../../etc/passwd".toList ∧
    '/' ∈ "../../etc/passwd".toList := by
  refine ⟨by decide, by decide, by decide⟩

/-- C7 amended: filename resolution applies no sanitization — a header
filename is returned verbatim (it may contain separators), and the URL
fallback, being the segment after the last slash, contains no path
separator but may be empty; sanitization is left to the caller. -/
theorem find_filename_no_hint_no_separator (url : List Char)
    (resp : HttpResponse) (h : resp.cd_filename = none) :
    find_filename url resp = urlBasename url ∧
    '/' ∉ find_filename url resp := by
  have hb : find_filename url resp = urlBasename url := by
    simp [find_filename, h]
  exact ⟨hb, hb ▸ not_mem_getLastD_splitOnChar '/' url⟩

/-- Witness for C7 amended: with no hint, the URL ending in `foo_bar`
resolves to `foo_bar`, which contains no slash. -/
theorem find_filename_no_hint_no_separator_witness :
    find_filename ("http://localhost:51854/foo_bar".toList)
      { status := 200, cd_filename := none, chunks := [], clean := true } =
      urlBasename ("http://localhost:51854/foo_bar".toList) ∧
    '/' ∉ find_filename ("http://localhost:51854/foo_bar".toList)
      { status := 200, cd_filename := none, chunks := [], clean := true } :=
  find_filename_no_hint_no_separator
    ("http://localhost:51854/foo_bar".toList)
    { status := 200, cd_filename := none, chunks := [], clean := true } rfl

theorem lookupEntry_removeEntry {α : Type} (es : List (String × Tree α))
    (p : String) : lookupEntry (removeEntry es p) p = none := by
  induction es with
  | nil => rfl
  | cons e es ih =>
    obtain ⟨k, w⟩ := e
    by_cases hk : k = p
    · simp [removeEntry, hk, ih]
    · simp [removeEntry, hk, lookupEntry, ih]

theorem lookupEntry_setEntry_self {α : Type} (es : List (String × Tree α))
    (p : String) (v : Tree α) :
    lookupEntry (setEntry es p v) p = some v := by
  induction es with
  | nil => simp [setEntry, lookupEntry]
  | cons e es ih =>
    obtain ⟨k, w⟩ := e
    by_cases hk : k = p
    · simp [setEntry, hk, lookupEntry]
    · simp [setEntry, hk, lookupEntry, ih]

theorem lookupEntry_setEntry_ne {α : Type} (es : List (String × Tree α))
    (p b : String) (v : Tree α) (hb : p ≠ b) :
    lookupEntry (setEntry es p v) b = lookupEntry es b := by
  induction es with
  | nil => simp [setEntry, lookupEntry, hb]
  | cons e es ih =>
    obtain ⟨k, w⟩ := e
    by_cases hk : k = p
    · subst hk
      simp [setEntry, lookupEntry, hb]
    · simp [setEntry, hk, lookupEntry, ih]

/-- C9: a successful completion of the recursive cleanup leaves the given
path non-existent in the resulting filesystem tree. -/
theorem rmtree_removes :
    ∀ (path : List String) (fs fs2 : FsNode),
      rmtree fs path = .ok fs2 → treeLookup fs2 path = none := by
  intro path
  induction path with
  | nil =>
    intro fs fs2 h
    cases fs <;> simp [rmtree] at h
  | cons p rest ih =>
    intro fs fs2 h
    cases fs with
    | leaf a => simp [rmtree] at h
    | node es =>
      cases rest with
      | nil =>
        cases hl : lookupEntry es p with
        | none => simp [rmtree, hl] at h
        | some t =>
          have hc2 : fs2 = .node (removeEntry es p) := by
            simp [rmtree, hl] at h
            exact h.symm
          subst hc2
          simp [treeLookup, lookupEntry_removeEntry]
      | cons q ps =>
        cases hl : lookupEntry es p with
        | none => simp [rmtree, hl] at h
        | some t =>
          cases hr : rmtree t (q :: ps) with
          | error e => simp [rmtree, hl, hr] at h
          | ok t2 =>
            have hc2 : fs2 = .node (setEntry es p t2) := by
              simp [rmtree, hl, hr] at h
              exact h.symm
            subst hc2
            simp only [treeLookup, lookupEntry_setEntry_self]
            exact ih t t2 hr

/-- Witness for C9: removing `test123` from the test's directory tree (one
directory holding one file) succeeds and the path no longer exists. -/
theorem rmtree_removes_witness :
    treeLookup (Tree.node ([] : List (String × FsNode))) ["test123"] = none :=
  rmtree_removes ["test123"] exampleFs (.node []) rfl

/-- C10 counterexample: with an empty config dictionary and the coordinate
path `log.path`, an argument value that is present makes `override` raise
`KeyError` (modelled `none`) instead of replacing a leaf entry — so the
claim does not hold for every config dictionary and coordinate path. -/
theorem override_missing_intermediate_raises :
    override (Tree.node []) ["log", "path"] (some (Tree.leaf "x")) = none ∧
    ¬ ∃ c2, override (Tree.node []) ["log", "path"]
        (some (Tree.leaf "x")) = some c2 := by
  refine ⟨rfl, ?_⟩
  rintro ⟨c2, hc⟩
  simp [override, override_set, lookupEntry] at hc

theorem override_set_lookup {α : Type} (v : Tree α) :
    ∀ (coords : List String) (config c2 : Tree α),
      override_set config coords v = some c2 →
      treeLookup c2 coords = some v ∧
      ∀ q, pathIncomparable coords q = true →
        treeLookup c2 q = treeLookup config q := by
  intro coords
  induction coords with
  | nil =>
    intro config c2 h
    cases config <;> simp [override_set] at h
  | cons p rest ih =>
    intro config c2 h
    cases config with
    | leaf a => simp [override_set] at h
    | node es =>
      cases rest with
      | nil =>
        have hc2 : c2 = .node (setEntry es p v) := by
          simp [override_set] at h
          exact h.symm
        subst hc2
        constructor
        · simp [treeLookup, lookupEntry_setEntry_self]
        · intro q hq
          cases q with
          | nil => simp [pathIncomparable] at hq
          | cons b qs =>
            by_cases hb : p = b
            · subst hb
              simp [pathIncomparable] at hq
            · simp [treeLookup, lookupEntry_setEntry_ne es p b v hb]
      | cons q0 qs0 =>
        cases hl : lookupEntry es p with
        | none => simp [override_set, hl] at h
        | some sub =>
          cases ho : override_set sub (q0 :: qs0) v with
          | none => simp [override_set, hl, ho] at h
          | some sub2 =>
            have h2 := ih sub sub2 ho
            have hc2 : c2 = .node (setEntry es p sub2) := by
              simp [override_set, hl, ho] at h
              exact h.symm
            subst hc2
            constructor
            · simp only [treeLookup, lookupEntry_setEntry_self]
              exact h2.1
            · intro q hq
              cases q with
              | nil => simp [pathIncomparable] at hq
              | cons b qs =>
                by_cases hb : p = b
                · subst hb
                  have hq2 : pathIncomparable (q0 :: qs0) qs = true := by
                    simpa [pathIncomparable] using hq
                  simp only [treeLookup, lookupEntry_setEntry_self, hl]
                  exact h2.2 qs hq2
                · simp [treeLookup, lookupEntry_setEntry_ne es p b sub2 hb]

/-- C10 amended: when the named argument is absent or `None`, `override`
leaves the config unchanged; when it is present and the coordinate path
resolves through existing dictionary entries, the returned config holds the
argument's value at the coordinate path and agrees with the original config
on every path that is incomparable with it; when an intermediate coordinate
is missing or not a dictionary (or the path is empty), `override` raises
and the config is unchanged. -/
theorem override_frame (config : Tree String) (coords : List String)
    (arg : Option (Tree String)) :
    (arg = none → override config coords arg = some config) ∧
    (∀ v c2, arg = some v → override config coords arg = some c2 →
      treeLookup c2 coords = some v ∧
      ∀ q, pathIncomparable coords q = true →
        treeLookup c2 q = treeLookup config q) := by
  constructor
  · intro ha
    subst ha
    rfl
  · intro v c2 ha h
    subst ha
    exact override_set_lookup v coords config c2 h

/-- Witness for C10 amended: overriding `log.path` in the example config
stores the new value there and leaves `log.level` as it was. -/
theorem override_frame_witness :
    treeLookup
      (Tree.node
        [("log", .node [("path", .leaf "override.log"),
                        ("level", .leaf "INFO")]),
         ("bind", .node [("address", .leaf "0.0.0.0"),
                         ("port", .leaf "7331")])])
      ["log", "path"] = some (Tree.leaf "override.log") ∧
    treeLookup
      (Tree.node
        [("log", .node [("path", .leaf "override.log"),
                        ("level", .leaf "INFO")]),
         ("bind", .node [("address", .leaf "0.0.0.0"),
                         ("port", .leaf "7331")])])
      ["log", "level"] = treeLookup exampleConfig ["log", "level"] := by
  have h := (override_frame exampleConfig ["log", "path"]
    (some (Tree.leaf "override.log"))).2 (Tree.leaf "override.log")
    (Tree.node
      [("log", .node [("path", .leaf "override.log"),
                      ("level", .leaf "INFO")]),
       ("bind", .node [("address", .leaf "0.0.0.0"),
                       ("port", .leaf "7331")])])
    rfl rfl
  exact ⟨h.1, h.2 ["log", "level"] (by decide)⟩

end Repour
